import Mathlib

/-!
Shallow embedding of `scripts/get_genomes.py` (CAMISIM genome selection).

Modelling conventions, used throughout:
* Python dicts are association lists kept in insertion order (`alookup`,
  `aupdate`);
* floating point abundances are exact rationals (`ℚ`);
* the external NCBI taxonomy adapter (`ete2.NCBITaxa`) is a record of
  functions (`Taxa`), and the numpy random draws are an explicit oracle
  (`DrawOracle`) whose distributional facts (geometric samples are ≥ 1,
  log-normal samples are positive, `choice(n, k, replace=False)` yields `k`
  distinct indices below `n`) appear as hypotheses;
* file reading and tab-splitting are abstracted: input files arrive as
  lists of already-parsed rows (catalog rows, biom observations).
-/

/-- Association-list lookup, modelling Python `d[k]` (`none` ↔ `k not in d`). -/
def alookup {α β : Type} [DecidableEq α] : List (α × β) → α → Option β
  | [], _ => none
  | (k, v) :: rest, a => if k = a then some v else alookup rest a

/-- Association-list update of an existing key, modelling `d[k] = f(d[k])`. -/
def aupdate {α β : Type} [DecidableEq α] (f : β → β) : List (α × β) → α → List (α × β)
  | [], _ => []
  | (k, v) :: rest, a => if k = a then (k, f v) :: rest else (k, v) :: aupdate f rest a

theorem alookup_mem {α β : Type} [DecidableEq α] {l : List (α × β)} {a : α} {b : β}
    (h : alookup l a = some b) : (a, b) ∈ l := by
  induction l with
  | nil => simp [alookup] at h
  | cons kv rest ih =>
    obtain ⟨k, v⟩ := kv
    by_cases hk : k = a
    · subst hk
      simp [alookup] at h
      simp [h]
    · simp [alookup, hk] at h
      exact List.mem_cons_of_mem _ (ih h)

theorem aupdate_map_fst {α β : Type} [DecidableEq α] (f : β → β) (l : List (α × β)) (a : α) :
    (aupdate f l a).map Prod.fst = l.map Prod.fst := by
  induction l with
  | nil => rfl
  | cons kv rest ih =>
    obtain ⟨k, v⟩ := kv
    by_cases hk : k = a <;> simp [aupdate, hk, ih]

theorem alookup_eq_none_of_not_mem_fst {α β : Type} [DecidableEq α] {l : List (α × β)} {a : α}
    (h : a ∉ l.map Prod.fst) : alookup l a = none := by
  induction l with
  | nil => rfl
  | cons kv rest ih =>
    obtain ⟨k, v⟩ := kv
    have hk : ¬ k = a := fun hka => h (by simp [hka])
    have hrest : a ∉ rest.map Prod.fst := fun hm => h (by simp [hm])
    simp [alookup, hk, ih hrest]

/-! ## `read_genomes_list`

`read_genomes_list` reads rows `NCBI_ID \t Scientific_Name \t path`; for the
primary file each path has `"ftp://"` replaced by `"http://"`
(`ftp.replace("ftp://","http://")`), rows of the optional additional file are
stored as they are.  Rows accumulate per NCBI id: the first row for an id
creates the entry `(sci_name, [path])`, later rows append to the path list. -/

/-- Python `s.replace("ftp://", "http://")` on the character list of `s`:
a left-to-right, non-overlapping scan; replaced text is not rescanned. -/
def replace_ftp : List Char → List Char
  | 'f' :: 't' :: 'p' :: ':' :: '/' :: '/' :: rest =>
      'h' :: 't' :: 't' :: 'p' :: ':' :: '/' :: '/' :: replace_ftp rest
  | c :: cs => c :: replace_ftp cs
  | [] => []

/-- `ftp.replace("ftp://","http://")` lifted to `String`. -/
def ftp_to_http (s : String) : String := String.mk (replace_ftp s.data)

/-- One already-parsed row of a genomes list file
(`ncbi_id, sci_name, ftp = line.strip().split('\t')`). -/
structure CatalogRow where
  ncbi_id : Nat
  sci_name : String
  path : String

/-- `genomes_map`: NCBI id ↦ (scientific name, accumulated source locations). -/
abbrev GenomesMap := List (Nat × String × List String)

/-- The per-line update of `genomes_map` in `read_genomes_list`. -/
def add_genome_row (m : GenomesMap) (id : Nat) (name loc : String) : GenomesMap :=
  match alookup m id with
  | some _ => aupdate (fun e => (e.1, e.2 ++ [loc])) m id
  | none => m ++ [(id, name, [loc])]

/-- `read_genomes_list(genomes_path, additional_file)`; a missing additional
file is the empty row list. -/
def read_genomes_list (primary additional : List CatalogRow) : GenomesMap :=
  let m := primary.foldl (fun m r => add_genome_row m r.ncbi_id r.sci_name (ftp_to_http r.path)) []
  additional.foldl (fun m r => add_genome_row m r.ncbi_id r.sci_name r.path) m

/-- Every source location stored anywhere in a `GenomesMap`. -/
def all_locations (m : GenomesMap) : List String := (m.map (fun e => e.2.2)).flatten

theorem all_locations_nil : all_locations [] = [] := rfl

theorem all_locations_cons (e : Nat × String × List String) (m : GenomesMap) :
    all_locations (e :: m) = e.2.2 ++ all_locations m := rfl

theorem all_locations_append (m m' : GenomesMap) :
    all_locations (m ++ m') = all_locations m ++ all_locations m' := by
  simp [all_locations]

theorem mem_all_locations_aupdate (m : GenomesMap) (id : Nat) (loc l : String)
    (h : (alookup m id).isSome) :
    l ∈ all_locations (aupdate (fun e => (e.1, e.2 ++ [loc])) m id) ↔
      l ∈ all_locations m ∨ l = loc := by
  induction m with
  | nil => simp [alookup] at h
  | cons kv rest ih =>
    obtain ⟨k, v⟩ := kv
    by_cases hk : k = id
    · simp only [aupdate, if_pos hk, all_locations_cons, List.mem_append, List.mem_singleton]
      tauto
    · have hrest : (alookup rest id).isSome := by simpa [alookup, hk] using h
      simp only [aupdate, if_neg hk, all_locations_cons, List.mem_append]
      rw [ih hrest]
      tauto

theorem mem_all_locations_add (m : GenomesMap) (id : Nat) (name loc l : String) :
    l ∈ all_locations (add_genome_row m id name loc) ↔ l ∈ all_locations m ∨ l = loc := by
  unfold add_genome_row
  cases h : alookup m id with
  | none =>
    simp only [all_locations_append, List.mem_append, all_locations_cons, all_locations_nil,
      List.mem_singleton]
    simp
  | some v =>
    have := mem_all_locations_aupdate m id loc l (by simp [h])
    simpa [h] using this

theorem mem_all_locations_foldl (rows : List CatalogRow) (g : CatalogRow → String)
    (m : GenomesMap) (l : String) :
    l ∈ all_locations (rows.foldl (fun m r => add_genome_row m r.ncbi_id r.sci_name (g r)) m) ↔
      l ∈ all_locations m ∨ ∃ r ∈ rows, l = g r := by
  induction rows generalizing m with
  | nil => simp
  | cons r rows ih =>
    simp only [List.foldl_cons]
    rw [ih, mem_all_locations_add]
    simp only [List.mem_cons]
    constructor
    · rintro ((hm | hl) | ⟨r', hr', hg⟩)
      · exact Or.inl hm
      · exact Or.inr ⟨r, Or.inl rfl, hl⟩
      · exact Or.inr ⟨r', Or.inr hr', hg⟩
    · rintro (hm | ⟨r', (rfl | hr'), hg⟩)
      · exact Or.inl (Or.inl hm)
      · exact Or.inl (Or.inr hg)
      · exact Or.inr ⟨r', hr', hg⟩

/-- C9: locations read from the primary catalog are stored with the
`"ftp://"` → `"http://"` rewrite applied, locations read from the additional
catalog are stored unmodified; a leading `"ftp://"` becomes `"http://"`. -/
theorem c9_ftp_rewrite :
    (∀ (primary additional : List CatalogRow) (loc : String),
        loc ∈ all_locations (read_genomes_list primary additional) ↔
          ((∃ r ∈ primary, loc = ftp_to_http r.path) ∨ (∃ r ∈ additional, loc = r.path))) ∧
    (∀ rest : String, ftp_to_http ("ftp://" ++ rest) = "http://" ++ ftp_to_http rest) := by
  constructor
  · intro primary additional loc
    unfold read_genomes_list
    rw [mem_all_locations_foldl, mem_all_locations_foldl]
    rw [show all_locations [] = [] from rfl]
    simp only [List.not_mem_nil, false_or]
  · intro rest
    apply String.ext
    show (ftp_to_http ("ftp://" ++ rest)).data = ("http://" ++ ftp_to_http rest).data
    have hdata : ("ftp://" ++ rest).data = 'f' :: 't' :: 'p' :: ':' :: '/' :: '/' :: rest.data :=
      String.data_append "ftp://" rest
    show replace_ftp ("ftp://" ++ rest).data = ("http://" ++ ftp_to_http rest).data
    have hh : ("http://" ++ ftp_to_http rest).data =
        'h' :: 't' :: 't' :: 'p' :: ':' :: '/' :: '/' :: replace_ftp rest.data := by
      rw [String.data_append]
      rfl
    rw [hdata, hh]
    rfl

/-! ## `read_taxonomic_profile`

The biom reader is external; the table arrives abstracted as observation
ids, sample ids, a taxonomy lookup (already a token list; the
`lineage.split(";")` fallback for string metadata is part of that
abstraction) and a value lookup.  The function warns and clamps when the
requested sample count disagrees with the file, then keeps for each OTU the
abundances of the first `no_samples` samples. -/

structure BiomTable where
  obs_ids : List String
  samples : List String
  taxonomy : String → List String
  value : String → String → ℚ

/-- The `no_samples` fix-up at the start of `read_taxonomic_profile`:
a missing argument means the file's sample count; a requested count that
differs from the file's and is not 1 is reduced to the file's count when it
exceeds it. -/
def effective_no_samples (samples_len : Nat) (req : Option Nat) : Nat :=
  match req with
  | none => samples_len
  | some n => if n ≠ samples_len ∧ n ≠ 1 then (if n > samples_len then samples_len else n) else n

/-- `read_taxonomic_profile(biom_profile, config, no_samples)`: the first
component is the value written to `config["Main"]["number_of_samples"]`, the
second the `profile` map `otu ↦ (lineage, abundances)` in observation
order. -/
def read_taxonomic_profile (table : BiomTable) (req : Option Nat) :
    Nat × List (String × List String × List ℚ) :=
  let no_samples := effective_no_samples table.samples.length req
  (no_samples,
   table.obs_ids.map (fun otu =>
     (otu, table.taxonomy otu, (table.samples.take no_samples).map (table.value otu))))

/-- C10: a requested sample count that differs from the profile's and is not
1 is clamped down to the profile's count (i.e. the effective count is the
minimum of the two), and every OTU's abundance vector has exactly that many
entries. -/
theorem c10_sample_clamp (table : BiomTable) (n : Nat)
    (hne : n ≠ table.samples.length) (h1 : n ≠ 1) :
    (read_taxonomic_profile table (some n)).1 = min n table.samples.length ∧
    ∀ p ∈ (read_taxonomic_profile table (some n)).2, p.2.2.length = min n table.samples.length := by
  have heff : effective_no_samples table.samples.length (some n) = min n table.samples.length := by
    show (if n ≠ table.samples.length ∧ n ≠ 1 then
        (if n > table.samples.length then table.samples.length else n) else n) =
      min n table.samples.length
    rw [if_pos ⟨hne, h1⟩]
    by_cases hgt : n > table.samples.length
    · rw [if_pos hgt]
      omega
    · rw [if_neg hgt]
      omega
  constructor
  · exact heff
  · intro p hp
    unfold read_taxonomic_profile at hp
    simp only [List.mem_map] at hp
    obtain ⟨otu, _, rfl⟩ := hp
    simp only [List.length_map, List.length_take, heff]
    omega

/-- Witness for C10 at a concrete table: requested 5 samples against a
3-sample profile gives effective count 3 and 3 abundances per OTU. -/
theorem c10_sample_clamp_witness :
    ((5 : Nat) ≠ (["s1", "s2", "s3"] : List String).length ∧ (5 : Nat) ≠ 1) ∧
    ((read_taxonomic_profile
        ⟨["o1"], ["s1", "s2", "s3"], fun _ => [], fun _ _ => 1⟩ (some 5)).1 =
      min 5 (["s1", "s2", "s3"] : List String).length ∧
     ∀ p ∈ (read_taxonomic_profile
        ⟨["o1"], ["s1", "s2", "s3"], fun _ => [], fun _ _ => 1⟩ (some 5)).2,
       p.2.2.length = min 5 (["s1", "s2", "s3"] : List String).length) :=
  ⟨⟨by decide, by decide⟩,
   c10_sample_clamp ⟨["o1"], ["s1", "s2", "s3"], fun _ => [], fun _ _ => 1⟩ 5
     (by decide) (by decide)⟩

/-! ## The taxonomy adapter and `transform_lineage`

`ete2.NCBITaxa` is external; it arrives as a record of pure lookups.
`get_rank` on a list of ids is modelled pointwise by `rank_of`, and
`get_name_translator(names)` by `get_name_translator` below, which — like
ete2 — returns a dict holding an entry exactly for those queried names the
taxonomy can resolve.  Names undergoing character-level processing are kept
as `List Char`. -/

structure Taxa where
  get_lineage : Nat → List Nat
  rank_of : Nat → String
  name_translator : List Char → List Nat

/-- Python `member.split("__")` on the character list: fields produced by a
left-to-right, non-overlapping scan for `"__"`. -/
def split_uu (acc : List Char) : List Char → List (List Char)
  | '_' :: '_' :: rest => acc.reverse :: split_uu [] rest
  | c :: cs => split_uu (c :: acc) cs
  | [] => [acc.reverse]

/-- Python `name.split()[0]` (first whitespace-delimited word; whitespace is
modelled as the space character; on an all-space name Python would raise
IndexError, the model returns the empty word, which the stale-mapping lookup
below treats the same way). -/
def first_word (name : List Char) : List Char :=
  (name.dropWhile (fun c => c = ' ')).takeWhile (fun c => c ≠ ' ')

/-- ete2 `get_name_translator(names)`: an entry exactly for each queried
name that resolves, in query order. -/
def get_name_translator (taxa : Taxa) (names : List (List Char)) :
    List (List Char × List Nat) :=
  names.filterMap (fun n =>
    match taxa.name_translator n with
    | [] => none
    | ids => some (n, ids))

/-- The body of the `for member in lineage` loop of `transform_lineage`:
take the right-hand side of the `"__"` token, skip empty names, resolve via
`get_name_translator([name])`, keep the id when its rank is recognized.  On
failure the source re-tries with the first word of the name — but against
`mapping`, the dict of the failed full-name query, which it never refreshes
(`mapping = ncbi.get_name_translator([name])` is not re-run), so the retry
consults a dict that cannot contain the shortened name. -/
def transform_member (taxa : Taxa) (ranks : List String) (new_lineage : List Nat)
    (member : String) : List Nat :=
  let name := (split_uu [] member.data).getLastD []
  if name.length = 0 then new_lineage
  else
    let mapping := get_name_translator taxa [name]
    match alookup mapping name with
    | some ids =>
      match ids.head? with
      | some taxid =>
          if taxa.rank_of taxid ∈ ranks then new_lineage ++ [taxid] else new_lineage
      | none => new_lineage
    | none =>
      let name2 := first_word name
      match alookup mapping name2 with
      | some ids =>
        match ids.head? with
        | some taxid =>
            if taxa.rank_of taxid ∈ ranks then new_lineage ++ [taxid] else new_lineage
        | none => new_lineage
      | none => new_lineage

/-- `transform_lineage(lineage, ranks, max_rank)` (`max_rank` is accepted and
unused, as in the source); the collected ids are reversed so the most
specific rank comes first. -/
def transform_lineage (taxa : Taxa) (lineage : List String) (ranks : List String)
    (max_rank : String) : List Nat :=
  (lineage.foldl (transform_member taxa ranks) []).reverse

/-- The fixed rank list and maximum rank of the source. -/
def RANKS : List String :=
  ["species", "genus", "family", "order", "class", "phylum", "superkingdom"]

def MAX_RANK : String := "family"

/-- A taxonomy in which the full name "Escherichia coli" does not resolve
but its first word "Escherichia" resolves to id 561 of rank genus. -/
def c4_taxa : Taxa where
  get_lineage := fun _ => []
  rank_of := fun t => if t = 561 then "genus" else "no rank"
  name_translator := fun n => if n = "Escherichia".data then [561] else []

/-- C4: evaluating the code on the claim's scenario.  The token
`"species__Escherichia coli"` has a full name that fails resolution while
its first word resolves to a recognized rank, yet `transform_lineage` drops
it: the retry tests the shortened name against the stale `mapping` of the
failed full-name query, so it can never succeed. -/
theorem c4_retry_never_resolves :
    transform_lineage c4_taxa ["species__Escherichia coli"] RANKS MAX_RANK = [] ∧
    c4_taxa.name_translator (first_word ("Escherichia coli".data)) = [561] ∧
    c4_taxa.rank_of 561 ∈ RANKS := by
  refine ⟨?_, by decide, by decide⟩
  decide

/-! ## `get_genomes_per_rank`

Builds the rank index: rank name ↦ (tax id ↦ list of (source location,
genome id) pairs).  Only ranks up to the configured maximum rank get a
bucket map; a genome is filed under every ancestor in its lineage whose
rank has one. -/

/-- A rank bucket: the list of (source location, genome id) pairs. -/
abbrev Bucket := List (String × Nat)

/-- tax id ↦ bucket. -/
abbrev BucketMap := List (Nat × Bucket)

/-- rank name ↦ bucket map. -/
abbrev RankIndex := List (String × BucketMap)

/-- The first loop of `get_genomes_per_rank`: iterate `ranks` in order and
stop (`break`) at the first rank whose position exceeds the maximum rank's
(Python `ranks.index(rank) > ranks.index(max_rank)`). -/
def init_ranks (ranks : List String) (max_rank : String) : List String → List String
  | [] => []
  | r :: rs =>
    if ranks.indexOf max_rank < ranks.indexOf r then []
    else r :: init_ranks ranks max_rank rs

/-- The inner `if tax_id in rank_map` update: append the entry to the
existing bucket or create a singleton bucket. -/
def add_to_bucket (bm : BucketMap) (tax_id : Nat) (entry : String × Nat) : BucketMap :=
  match alookup bm tax_id with
  | some _ => aupdate (fun b => b ++ [entry]) bm tax_id
  | none => bm ++ [(tax_id, [entry])]

/-- The `for tax_id in lineage` loop for one genome: file the genome's
primary source location under every lineage member whose rank has a bucket
map in the index. -/
def index_genome (taxa : Taxa) (idx : RankIndex) (genome_id : Nat) (loc : String) : RankIndex :=
  (taxa.get_lineage genome_id).foldl (fun idx tax_id =>
    if (alookup idx (taxa.rank_of tax_id)).isSome then
      aupdate (fun bm => add_to_bucket bm tax_id (loc, genome_id)) idx (taxa.rank_of tax_id)
    else idx) idx

/-- `get_genomes_per_rank(genomes_map, ranks, max_rank)`.  Python indexes
the primary location as `genomes_map[genome][1][0]`; location lists built by
`read_genomes_list` are nonempty, so `headD ""` agrees with `[0]` on every
reachable input. -/
def get_genomes_per_rank (taxa : Taxa) (genomes_map : GenomesMap)
    (ranks : List String) (max_rank : String) : RankIndex :=
  genomes_map.foldl (fun idx g => index_genome taxa idx g.1 (g.2.2.headD ""))
    ((init_ranks ranks max_rank ranks).map (fun r => (r, ([] : BucketMap))))

theorem index_genome_map_fst (taxa : Taxa) (idx : RankIndex) (g : Nat) (loc : String) :
    (index_genome taxa idx g loc).map Prod.fst = idx.map Prod.fst := by
  unfold index_genome
  generalize taxa.get_lineage g = lin
  induction lin generalizing idx with
  | nil => rfl
  | cons t ts ih =>
    simp only [List.foldl_cons]
    by_cases h : (alookup idx (taxa.rank_of t)).isSome
    · rw [if_pos h, ih, aupdate_map_fst]
    · rw [if_neg h, ih]

theorem foldl_index_genome_map_fst (taxa : Taxa) (gs : GenomesMap) (idx : RankIndex) :
    ((gs.foldl (fun idx g => index_genome taxa idx g.1 (g.2.2.headD "")) idx).map Prod.fst) =
      idx.map Prod.fst := by
  induction gs generalizing idx with
  | nil => rfl
  | cons g gs ih =>
    simp only [List.foldl_cons]
    rw [ih, index_genome_map_fst]

theorem get_genomes_per_rank_map_fst (taxa : Taxa) (gm : GenomesMap)
    (ranks : List String) (max_rank : String) :
    (get_genomes_per_rank taxa gm ranks max_rank).map Prod.fst =
      init_ranks ranks max_rank ranks := by
  unfold get_genomes_per_rank
  rw [foldl_index_genome_map_fst]
  have hc : (Prod.fst ∘ fun r : String => (r, ([] : BucketMap))) = fun r => r := rfl
  rw [List.map_map, hc, List.map_id']

/-- C6: with maximum rank "family" the rank index holds bucket maps exactly
for species, genus and family; a lookup at any coarser rank (order, class,
phylum, superkingdom) finds nothing, so no genome is ever indexed there. -/
theorem c6_rank_keys (taxa : Taxa) (gm : GenomesMap) :
    (get_genomes_per_rank taxa gm RANKS MAX_RANK).map Prod.fst =
      ["species", "genus", "family"] ∧
    alookup (get_genomes_per_rank taxa gm RANKS MAX_RANK) "order" = none ∧
    alookup (get_genomes_per_rank taxa gm RANKS MAX_RANK) "class" = none ∧
    alookup (get_genomes_per_rank taxa gm RANKS MAX_RANK) "phylum" = none ∧
    alookup (get_genomes_per_rank taxa gm RANKS MAX_RANK) "superkingdom" = none := by
  have hkeys : (get_genomes_per_rank taxa gm RANKS MAX_RANK).map Prod.fst =
      ["species", "genus", "family"] := by
    rw [get_genomes_per_rank_map_fst]
    decide
  refine ⟨hkeys, ?_, ?_, ?_, ?_⟩ <;>
    exact alookup_eq_none_of_not_mem_fst (by rw [hkeys]; decide)

/-! ## `map_otus_to_genomes`

The numpy draws appear as an oracle keyed by the OTU whose processing
consumes them: `geometric otu` is the raw `np_rand.geometric(2./max_strains)`
sample (a positive integer), `choose otu n k` the index list of
`np_rand.choice(n, k, replace=False)` (k distinct indices below n), and
`lognormal otu n` the weight vector `np_rand.lognormal(mu, sigma, n)`
(n positive reals, here rationals).  The distribution parameters
`2./max_strains`, `mu`, `sigma` only shape those external draws, so they do
not reappear in the embedding. -/

structure DrawOracle where
  geometric : String → Nat
  choose : String → Nat → Nat → List Nat
  lognormal : String → Nat → List ℚ

/-- One entry of `otu_genome_map`: tax id used for the match, genome id,
source location, per-sample abundances. -/
structure Assignment where
  tax_id : Nat
  genome_id : Nat
  path : String
  abunds : List ℚ
deriving DecidableEq

/-- Python `bucket.remove(x)` guarded by `if x in bucket`: drop the first
occurrence, no-op when absent. -/
def list_remove {α : Type} [DecidableEq α] (x : α) : List α → List α
  | [] => []
  | y :: ys => if y = x then ys else y :: list_remove x ys

/-- The without-replacement removal loop: drop the consumed
(source location, genome id) pair from every bucket of the index. -/
def remove_pair (idx : RankIndex) (pg : String × Nat) : RankIndex :=
  idx.map (fun rb => (rb.1, rb.2.map (fun tb => (tb.1, list_remove pg tb.2))))

/-- The records created for one OTU from its drawn genomes: strain keys
`otu.i`, each with the log-normal share of the OTU's abundances
(`relative_abundance * abundance` per sample). -/
def strain_records (otu : String) (tax_id : Nat) (abundances : List ℚ)
    (used_genomes : List (String × Nat)) (w : List ℚ) : List (String × Assignment) :=
  used_genomes.enum.map (fun ip =>
    (otu ++ "." ++ toString ip.1,
     { tax_id := tax_id, genome_id := ip.2.2, path := ip.2.1,
       abunds := abundances.map (fun a => (w.getD ip.1 0 / w.sum) * a) }))

/-- The `for tax_id in lineage` walk of `map_otus_to_genomes` for one OTU:
break with warnings when the rank is past the maximum; continue on a missing
bucket; otherwise draw the strain count, select genomes (Python's set
literal is the draw order deduplicated), split the abundances by the
log-normal weights, consume the drawn genomes when sampling without
replacement, and break. -/
def walk_lineage (taxa : Taxa) (D : DrawOracle) (ranks : List String) (max_rank : String)
    (max_strains : Nat) (replace : Bool) (otu : String) (abundances : List ℚ)
    (idx : RankIndex) : List Nat → List (String × Assignment) × RankIndex × List String
  | [] => ([], idx, [])
  | tax_id :: rest =>
    let rank := taxa.rank_of tax_id
    if ranks.indexOf max_rank < ranks.indexOf rank then
      ([], idx, ["Rank " ++ rank ++ " of OTU " ++ otu ++ " too high, no matching genomes found",
                 "Full lineage was mapped from the BIOM lineage"])
    else
      let genomes := (alookup idx rank).getD []
      match alookup genomes tax_id with
      | none =>
        let r := walk_lineage taxa D ranks max_rank max_strains replace otu abundances idx rest
        (r.1, r.2.1,
         ("For OTU " ++ otu ++ " no genomes have been found on rank " ++ rank) :: r.2.2)
      | some available_genomes =>
        let strains_to_draw := max (D.geometric otu % max_strains) 1
        let used_genomes :=
          if available_genomes.length ≥ strains_to_draw then
            ((D.choose otu available_genomes.length strains_to_draw).filterMap
              (fun i => available_genomes[i]?)).dedup
          else available_genomes.dedup
        let w := D.lognormal otu used_genomes.length
        let idx' := if replace then idx else used_genomes.foldl remove_pair idx
        (strain_records otu tax_id abundances used_genomes w, idx', [])

/-- The body of the `for otu in profile` loop: normalize the lineage, record
the unmapped warning when it is empty, then walk it. -/
def process_otu (taxa : Taxa) (D : DrawOracle) (ranks : List String) (max_rank : String)
    (max_strains : Nat) (replace : Bool) (otu : String) (lin : List String)
    (abundances : List ℚ) (idx : RankIndex) :
    List (String × Assignment) × RankIndex × List String :=
  let lineage := transform_lineage taxa lin ranks max_rank
  let w0 : List String :=
    if lineage.isEmpty then ["No matching NCBI ID for otu " ++ otu] else []
  let r := walk_lineage taxa D ranks max_rank max_strains replace otu abundances idx lineage
  (r.1, r.2.1, w0 ++ r.2.2)

/-- `map_otus_to_genomes(profile, per_rank_map, ranks, max_rank, mu, sigma,
max_strains, debug, replace, fillup)`: fold the per-OTU step over the
profile in iteration order, threading the rank index (the one mutable
structure) and accumulating records and warnings (`debug` only toggles
warning printing and `fillup` is unused in the source body, so neither
appears here). -/
def map_otus_to_genomes (taxa : Taxa) (D : DrawOracle)
    (profile : List (String × List String × List ℚ)) (per_rank_map : RankIndex)
    (ranks : List String) (max_rank : String) (max_strains : Nat) (replace : Bool) :
    List (String × Assignment) × RankIndex × List String :=
  profile.foldl (fun acc p =>
    let r := process_otu taxa D ranks max_rank max_strains replace p.1 p.2.1 p.2.2 acc.2.1
    (acc.1 ++ r.1, r.2.1, acc.2.2 ++ r.2.2)) ([], per_rank_map, [])

/-! ### C1: the log-normal split preserves each OTU's abundances -/

theorem getD_map_mul (c : ℚ) (l : List ℚ) (j : Nat) :
    (l.map (fun a => c * a)).getD j 0 = c * l.getD j 0 := by
  induction l generalizing j with
  | nil => simp
  | cons a t ih =>
    cases j with
    | zero => simp
    | succ j => simpa using ih j

theorem map_getD_range (w : List ℚ) :
    (List.range w.length).map (fun i => w.getD i 0) = w := by
  induction w with
  | nil => rfl
  | cons a t ih =>
    rw [List.length_cons, List.range_succ_eq_map, List.map_cons, List.map_map]
    have hc : ((fun i => (a :: t).getD i 0) ∘ Nat.succ) = (fun i => t.getD i 0) := by
      funext i
      rfl
    rw [hc, ih]
    rfl

theorem strain_records_length (otu : String) (tax_id : Nat) (abundances : List ℚ)
    (used : List (String × Nat)) (w : List ℚ) :
    (strain_records otu tax_id abundances used w).length = used.length := by
  simp [strain_records]

theorem strain_records_sum (otu : String) (tax_id : Nat) (abundances : List ℚ)
    (used : List (String × Nat)) (w : List ℚ) (j : Nat)
    (hlen : w.length = used.length) (hs : w.sum ≠ 0) :
    ((strain_records otu tax_id abundances used w).map
      (fun r => r.2.abunds.getD j 0)).sum = abundances.getD j 0 := by
  unfold strain_records
  rw [List.map_map]
  have hfun : ((fun r : String × Assignment => r.2.abunds.getD j 0) ∘
      (fun ip : Nat × (String × Nat) =>
        (otu ++ "." ++ toString ip.1,
         ({ tax_id := tax_id, genome_id := ip.2.2, path := ip.2.1,
            abunds := abundances.map (fun a => (w.getD ip.1 0 / w.sum) * a) } : Assignment)))) =
      (fun i => (w.getD i 0 / w.sum) * abundances.getD j 0) ∘ Prod.fst := by
    funext ip
    exact getD_map_mul _ abundances j
  rw [hfun, ← List.map_map, List.enum_map_fst, ← hlen]
  have hterm : (fun i => (w.getD i 0 / w.sum) * abundances.getD j 0) =
      (fun i => (w.getD i 0) * (abundances.getD j 0 / w.sum)) := by
    funext i
    rw [div_mul_eq_mul_div, mul_div_assoc]
  rw [hterm]
  rw [List.sum_map_mul_right, map_getD_range, mul_comm, div_mul_cancel₀ _ hs]

theorem sum_pos_of_mem_pos (w : List ℚ) (hpos : ∀ q ∈ w, 0 < q) (hne : w ≠ []) :
    0 < w.sum := by
  induction w with
  | nil => exact absurd rfl hne
  | cons a t ih =>
    have ha : 0 < a := hpos a (List.mem_cons_self a t)
    rcases eq_or_ne t [] with rfl | hte
    · simpa using ha
    · have ht := ih (fun q hq => hpos q (List.mem_cons_of_mem a hq)) hte
      rw [List.sum_cons]
      exact add_pos ha ht

theorem found_branch_sum (D : DrawOracle) (otu : String) (tax_id : Nat)
    (abundances : List ℚ) (U : List (String × Nat)) (j : Nat)
    (hlen : ∀ n, (D.lognormal otu n).length = n)
    (hpos : ∀ n, ∀ q ∈ D.lognormal otu n, 0 < q)
    (hne : strain_records otu tax_id abundances U (D.lognormal otu U.length) ≠ []) :
    ((strain_records otu tax_id abundances U (D.lognormal otu U.length)).map
      (fun r => r.2.abunds.getD j 0)).sum = abundances.getD j 0 := by
  have hU : U ≠ [] := by
    intro hUe
    exact hne (by rw [hUe]; rfl)
  have hwne : D.lognormal otu U.length ≠ [] := by
    intro hw
    have := hlen U.length
    rw [hw] at this
    exact hU (List.eq_nil_of_length_eq_zero this.symm)
  exact strain_records_sum otu tax_id abundances U (D.lognormal otu U.length) j
    (hlen U.length)
    (ne_of_gt (sum_pos_of_mem_pos _ (hpos U.length) hwne))

theorem walk_lineage_sum (taxa : Taxa) (D : DrawOracle) (ranks : List String)
    (max_rank : String) (max_strains : Nat) (replace : Bool) (otu : String)
    (abundances : List ℚ) (j : Nat)
    (hlen : ∀ n, (D.lognormal otu n).length = n)
    (hpos : ∀ n, ∀ q ∈ D.lognormal otu n, 0 < q) :
    ∀ (idx : RankIndex) (lineage : List Nat),
      (walk_lineage taxa D ranks max_rank max_strains replace otu abundances idx lineage).1 ≠ [] →
      ((walk_lineage taxa D ranks max_rank max_strains replace otu abundances idx
        lineage).1.map (fun r => r.2.abunds.getD j 0)).sum = abundances.getD j 0 := by
  intro idx lineage
  induction lineage generalizing idx with
  | nil =>
    intro h
    exact absurd rfl h
  | cons tax_id rest ih =>
    by_cases hr : ranks.indexOf max_rank < ranks.indexOf (taxa.rank_of tax_id)
    · intro hne
      simp only [walk_lineage, if_pos hr] at hne
      exact absurd rfl hne
    · cases halo : alookup ((alookup idx (taxa.rank_of tax_id)).getD []) tax_id with
      | none =>
        intro hne
        simp only [walk_lineage, if_neg hr, halo] at hne ⊢
        exact ih idx hne
      | some available =>
        intro hne
        simp only [walk_lineage, if_neg hr, halo] at hne ⊢
        exact found_branch_sum D otu tax_id abundances _ j hlen hpos hne

/-- C1: whenever an OTU receives at least one assignment record, the sum of
the assigned strains' abundances at any sample index equals the OTU's
original abundance at that sample (exactly, in the rational model: the
log-normal weights are divided by their total before multiplying). -/
theorem c1_abundance_sum (taxa : Taxa) (D : DrawOracle) (ranks : List String)
    (max_rank : String) (max_strains : Nat) (replace : Bool) (otu : String)
    (lin : List String) (abundances : List ℚ) (idx : RankIndex) (j : Nat)
    (hlen : ∀ n, (D.lognormal otu n).length = n)
    (hpos : ∀ n, ∀ q ∈ D.lognormal otu n, 0 < q)
    (hne : (process_otu taxa D ranks max_rank max_strains replace otu lin
      abundances idx).1 ≠ []) :
    ((process_otu taxa D ranks max_rank max_strains replace otu lin abundances
      idx).1.map (fun r => r.2.abunds.getD j 0)).sum = abundances.getD j 0 := by
  unfold process_otu at hne ⊢
  exact walk_lineage_sum taxa D ranks max_rank max_strains replace otu abundances j
    hlen hpos idx _ hne

/-- A small concrete taxonomy for exercising the assignment engine. -/
def engine_taxa : Taxa where
  get_lineage := fun _ => []
  rank_of := fun t => if t = 7 then "species" else "no rank"
  name_translator := fun n => if n = "Ecoli".data then [7] else []

/-- A concrete draw oracle: geometric samples are 1, `choice(n, k)` picks the
first k indices, log-normal weights are all 1. -/
def engine_oracle : DrawOracle where
  geometric := fun _ => 1
  choose := fun _ _ k => List.range k
  lognormal := fun _ n => List.replicate n 1

/-- A concrete rank index with two genomes available for species 7. -/
def engine_idx : RankIndex :=
  [("species", [(7, [("http://x/g1", 1), ("http://x/g2", 2)])]),
   ("genus", []), ("family", [])]

/-- Witness for C1: a concrete OTU that receives one record; its abundance
at sample 0 is recovered exactly. -/
theorem c1_abundance_sum_witness :
    ((process_otu engine_taxa engine_oracle RANKS MAX_RANK 3 true "o1" ["species__Ecoli"]
        [4, 6] engine_idx).1 ≠ []) ∧
    ((process_otu engine_taxa engine_oracle RANKS MAX_RANK 3 true "o1" ["species__Ecoli"]
        [4, 6] engine_idx).1.map (fun r => r.2.abunds.getD 0 0)).sum =
      ([4, 6] : List ℚ).getD 0 0 :=
  ⟨by decide,
   c1_abundance_sum engine_taxa engine_oracle RANKS MAX_RANK 3 true "o1" ["species__Ecoli"]
     [4, 6] engine_idx 0
     (fun n => List.length_replicate n 1)
     (fun n q hq => by rw [List.eq_of_mem_replicate hq]; norm_num)
     (by decide)⟩

/-! ### C2: without replacement, no (source location, genome id) pair is
assigned twice -/

/-- The (source location, genome id) pair of an assignment record. -/
def pair_of (r : String × Assignment) : String × Nat := (r.2.path, r.2.genome_id)

/-- The pair occurs in some bucket of the index. -/
def pair_in_index (idx : RankIndex) (pg : String × Nat) : Prop :=
  ∃ rb ∈ idx, ∃ tb ∈ rb.2, pg ∈ tb.2

/-- Every bucket of the index is duplicate-free (true of every index the
catalog builder produces from a taxonomy whose lineages do not repeat a tax
id, and preserved by consumption). -/
def buckets_nodup (idx : RankIndex) : Prop :=
  ∀ rb ∈ idx, ∀ tb ∈ rb.2, tb.2.Nodup

instance (idx : RankIndex) (pg : String × Nat) : Decidable (pair_in_index idx pg) := by
  unfold pair_in_index
  infer_instance

instance (idx : RankIndex) : Decidable (buckets_nodup idx) := by
  unfold buckets_nodup
  infer_instance

theorem mem_list_remove {α : Type} [DecidableEq α] {a x : α} {l : List α}
    (h : a ∈ list_remove x l) : a ∈ l := by
  induction l with
  | nil => exact absurd h (List.not_mem_nil a)
  | cons y ys ih =>
    by_cases hy : y = x
    · rw [list_remove, if_pos hy] at h
      exact List.mem_cons_of_mem y h
    · rw [list_remove, if_neg hy] at h
      rcases List.mem_cons.mp h with rfl | h
      · exact List.mem_cons_self a ys
      · exact List.mem_cons_of_mem y (ih h)

theorem not_mem_list_remove_self {α : Type} [DecidableEq α] {x : α} {l : List α}
    (h : l.Nodup) : x ∉ list_remove x l := by
  induction l with
  | nil => simp [list_remove]
  | cons y ys ih =>
    rcases List.nodup_cons.mp h with ⟨hy, hys⟩
    by_cases hyx : y = x
    · rw [list_remove, if_pos hyx]
      rw [hyx] at hy
      exact hy
    · rw [list_remove, if_neg hyx]
      intro hmem
      rcases List.mem_cons.mp hmem with heq | hmem
      · exact hyx heq.symm
      · exact ih hys hmem

theorem nodup_list_remove {α : Type} [DecidableEq α] (x : α) {l : List α}
    (h : l.Nodup) : (list_remove x l).Nodup := by
  induction l with
  | nil => exact h
  | cons y ys ih =>
    rcases List.nodup_cons.mp h with ⟨hy, hys⟩
    by_cases hyx : y = x
    · rw [list_remove, if_pos hyx]
      exact hys
    · rw [list_remove, if_neg hyx]
      exact List.nodup_cons.mpr ⟨fun hm => hy (mem_list_remove hm), ih hys⟩

theorem pair_in_index_remove {idx : RankIndex} {q p : String × Nat}
    (h : pair_in_index (remove_pair idx q) p) : pair_in_index idx p := by
  obtain ⟨rb, hrb, tb, htb, hp⟩ := h
  rw [remove_pair, List.mem_map] at hrb
  obtain ⟨rb0, hrb0, rfl⟩ := hrb
  simp only [List.mem_map] at htb
  obtain ⟨tb0, htb0, rfl⟩ := htb
  exact ⟨rb0, hrb0, tb0, htb0, mem_list_remove hp⟩

theorem not_pair_in_index_remove_self {idx : RankIndex} {p : String × Nat}
    (h : buckets_nodup idx) : ¬ pair_in_index (remove_pair idx p) p := by
  rintro ⟨rb, hrb, tb, htb, hp⟩
  rw [remove_pair, List.mem_map] at hrb
  obtain ⟨rb0, hrb0, rfl⟩ := hrb
  simp only [List.mem_map] at htb
  obtain ⟨tb0, htb0, rfl⟩ := htb
  exact not_mem_list_remove_self (h rb0 hrb0 tb0 htb0) hp

theorem buckets_nodup_remove {idx : RankIndex} (p : String × Nat)
    (h : buckets_nodup idx) : buckets_nodup (remove_pair idx p) := by
  rintro rb hrb tb htb
  rw [remove_pair, List.mem_map] at hrb
  obtain ⟨rb0, hrb0, rfl⟩ := hrb
  simp only [List.mem_map] at htb
  obtain ⟨tb0, htb0, rfl⟩ := htb
  exact nodup_list_remove p (h rb0 hrb0 tb0 htb0)

theorem not_pair_in_index_foldl {used : List (String × Nat)} {idx : RankIndex}
    {p : String × Nat} (h : ¬ pair_in_index idx p) :
    ¬ pair_in_index (used.foldl remove_pair idx) p := by
  induction used generalizing idx with
  | nil => exact h
  | cons q qs ih =>
    exact ih (fun hm => h (pair_in_index_remove hm))

theorem buckets_nodup_foldl {used : List (String × Nat)} {idx : RankIndex}
    (h : buckets_nodup idx) : buckets_nodup (used.foldl remove_pair idx) := by
  induction used generalizing idx with
  | nil => exact h
  | cons q qs ih => exact ih (buckets_nodup_remove q h)

theorem not_pair_in_index_foldl_self {used : List (String × Nat)} {idx : RankIndex}
    (h : buckets_nodup idx) :
    ∀ p ∈ used, ¬ pair_in_index (used.foldl remove_pair idx) p := by
  induction used generalizing idx with
  | nil => intro p hp; exact absurd hp (List.not_mem_nil p)
  | cons q qs ih =>
    intro p hp
    rw [List.foldl_cons]
    rcases List.mem_cons.mp hp with rfl | hp
    · exact not_pair_in_index_foldl (not_pair_in_index_remove_self h)
    · exact ih (buckets_nodup_remove q h) p hp

theorem strain_records_map_pair (otu : String) (tax_id : Nat) (abundances : List ℚ)
    (used : List (String × Nat)) (w : List ℚ) :
    (strain_records otu tax_id abundances used w).map pair_of = used := by
  unfold strain_records
  rw [List.map_map]
  have hc : ((pair_of ∘ fun ip : Nat × (String × Nat) =>
      (otu ++ "." ++ toString ip.1,
       ({ tax_id := tax_id, genome_id := ip.2.2, path := ip.2.1,
          abunds := abundances.map (fun a => (w.getD ip.1 0 / w.sum) * a) } : Assignment)))) =
      (Prod.snd : Nat × (String × Nat) → String × Nat) := by
    funext ip
    rfl
  rw [hc, List.enum_map_snd]

theorem used_genomes_nodup (available : Bucket) (indices : List Nat) (k : Nat) :
    (if available.length ≥ k then (indices.filterMap (fun i => available[i]?)).dedup
     else available.dedup).Nodup := by
  split <;> exact List.nodup_dedup _

theorem used_genomes_subset (available : Bucket) (indices : List Nat) (k : Nat) :
    ∀ p ∈ (if available.length ≥ k then (indices.filterMap (fun i => available[i]?)).dedup
        else available.dedup), p ∈ available := by
  split
  · intro p hp
    rcases List.mem_filterMap.mp (List.mem_dedup.mp hp) with ⟨i, _, hi⟩
    exact List.getElem?_mem hi
  · intro p hp
    exact List.mem_dedup.mp hp

theorem found_branch_invariants (idx : RankIndex) (U : List (String × Nat))
    (available : Bucket) (rank : String) (bm : BucketMap) (tax_id : Nat)
    (hnd : buckets_nodup idx)
    (hbm : alookup idx rank = some bm) (hav : alookup bm tax_id = some available)
    (hUnd : U.Nodup) (hUsub : ∀ p ∈ U, p ∈ available) :
    U.Nodup ∧
    (∀ p ∈ U, pair_in_index idx p) ∧
    (∀ p ∈ U, ¬ pair_in_index (U.foldl remove_pair idx) p) ∧
    (∀ p, ¬ pair_in_index idx p → ¬ pair_in_index (U.foldl remove_pair idx) p) ∧
    buckets_nodup (U.foldl remove_pair idx) :=
  ⟨hUnd,
   fun p hp => ⟨(rank, bm), alookup_mem hbm, (tax_id, available), alookup_mem hav, hUsub p hp⟩,
   fun p hp => not_pair_in_index_foldl_self hnd p hp,
   fun _ hni => not_pair_in_index_foldl hni,
   buckets_nodup_foldl hnd⟩

theorem walk_lineage_without_replacement (taxa : Taxa) (D : DrawOracle) (ranks : List String)
    (max_rank : String) (max_strains : Nat) (otu : String) (abundances : List ℚ) :
    ∀ (idx : RankIndex) (lineage : List Nat), buckets_nodup idx →
      (((walk_lineage taxa D ranks max_rank max_strains false otu abundances idx
          lineage).1.map pair_of).Nodup ∧
       (∀ p ∈ (walk_lineage taxa D ranks max_rank max_strains false otu abundances idx
          lineage).1.map pair_of, pair_in_index idx p) ∧
       (∀ p ∈ (walk_lineage taxa D ranks max_rank max_strains false otu abundances idx
          lineage).1.map pair_of,
          ¬ pair_in_index (walk_lineage taxa D ranks max_rank max_strains false otu abundances
            idx lineage).2.1 p) ∧
       (∀ p, ¬ pair_in_index idx p →
          ¬ pair_in_index (walk_lineage taxa D ranks max_rank max_strains false otu abundances
            idx lineage).2.1 p) ∧
       buckets_nodup (walk_lineage taxa D ranks max_rank max_strains false otu abundances idx
          lineage).2.1) := by
  intro idx lineage
  induction lineage generalizing idx with
  | nil =>
    intro hnd
    exact ⟨List.nodup_nil, fun p hp => absurd hp (List.not_mem_nil p),
      fun p hp => absurd hp (List.not_mem_nil p), fun p h => h, hnd⟩
  | cons tax_id rest ih =>
    intro hnd
    by_cases hr : ranks.indexOf max_rank < ranks.indexOf (taxa.rank_of tax_id)
    · simp only [walk_lineage, if_pos hr]
      exact ⟨List.nodup_nil, fun p hp => absurd hp (List.not_mem_nil p),
        fun p hp => absurd hp (List.not_mem_nil p), fun p h => h, hnd⟩
    · cases halo : alookup ((alookup idx (taxa.rank_of tax_id)).getD []) tax_id with
      | none =>
        simp only [walk_lineage, if_neg hr, halo]
        exact ih idx hnd
      | some available =>
        obtain ⟨bm, hbm⟩ : ∃ bm, alookup idx (taxa.rank_of tax_id) = some bm := by
          cases hb : alookup idx (taxa.rank_of tax_id) with
          | none => rw [hb] at halo; exact absurd halo (by simp [alookup])
          | some bm => exact ⟨bm, rfl⟩
        have hav : alookup bm tax_id = some available := by
          rw [hbm] at halo
          exact halo
        simp only [walk_lineage, if_neg hr, halo, strain_records_map_pair,
          Bool.false_eq_true, if_false]
        exact found_branch_invariants idx _ available (taxa.rank_of tax_id) bm tax_id hnd hbm
          hav (used_genomes_nodup _ _ _) (used_genomes_subset _ _ _)

theorem process_otu_fst (taxa : Taxa) (D : DrawOracle) (ranks : List String)
    (max_rank : String) (max_strains : Nat) (replace : Bool) (otu : String)
    (lin : List String) (abundances : List ℚ) (idx : RankIndex) :
    (process_otu taxa D ranks max_rank max_strains replace otu lin abundances idx).1 =
      (walk_lineage taxa D ranks max_rank max_strains replace otu abundances idx
        (transform_lineage taxa lin ranks max_rank)).1 := rfl

theorem process_otu_idx (taxa : Taxa) (D : DrawOracle) (ranks : List String)
    (max_rank : String) (max_strains : Nat) (replace : Bool) (otu : String)
    (lin : List String) (abundances : List ℚ) (idx : RankIndex) :
    (process_otu taxa D ranks max_rank max_strains replace otu lin abundances idx).2.1 =
      (walk_lineage taxa D ranks max_rank max_strains replace otu abundances idx
        (transform_lineage taxa lin ranks max_rank)).2.1 := rfl

theorem map_otus_fold_nodup (taxa : Taxa) (D : DrawOracle) (ranks : List String)
    (max_rank : String) (max_strains : Nat)
    (profile : List (String × List String × List ℚ)) :
    ∀ (acc : List (String × Assignment)) (idx : RankIndex) (ws : List String),
      (acc.map pair_of).Nodup →
      (∀ p ∈ acc.map pair_of, ¬ pair_in_index idx p) →
      buckets_nodup idx →
      ((profile.foldl (fun acc p =>
          let r := process_otu taxa D ranks max_rank max_strains false p.1 p.2.1 p.2.2 acc.2.1
          (acc.1 ++ r.1, r.2.1, acc.2.2 ++ r.2.2)) (acc, idx, ws)).1.map pair_of).Nodup := by
  induction profile with
  | nil =>
    intro acc idx ws h1 _ _
    exact h1
  | cons p ps ih =>
    intro acc idx ws h1 h2 h3
    simp only [List.foldl_cons]
    have hw := walk_lineage_without_replacement taxa D ranks max_rank max_strains p.1 p.2.2
      idx (transform_lineage taxa p.2.1 ranks max_rank) h3
    obtain ⟨hw1, hw2, hw3, hw4, hw5⟩ := hw
    rw [process_otu_fst, process_otu_idx] at *
    apply ih
    · rw [List.map_append]
      refine List.Nodup.append h1 hw1 ?_
      intro a ha hw
      exact h2 a ha (hw2 a hw)
    · intro q hq
      rw [List.map_append, List.mem_append] at hq
      rcases hq with hq | hq
      · exact hw4 q (h2 q hq)
      · exact hw3 q hq
    · exact hw5

/-- C2: with the without-replacement policy (`replace = false`) and an
initially duplicate-free rank index, the (source location, genome id) pairs
of all assignment records produced in one run are pairwise distinct: every
consumed genome is removed from every bucket that contains it, so no genome
is assigned to two records. -/
theorem c2_without_replacement (taxa : Taxa) (D : DrawOracle)
    (profile : List (String × List String × List ℚ)) (idx : RankIndex)
    (ranks : List String) (max_rank : String) (max_strains : Nat)
    (hnd : buckets_nodup idx) :
    ((map_otus_to_genomes taxa D profile idx ranks max_rank max_strains false).1.map
      pair_of).Nodup := by
  unfold map_otus_to_genomes
  exact map_otus_fold_nodup taxa D ranks max_rank max_strains profile [] idx []
    List.nodup_nil (fun p hp => absurd hp (List.not_mem_nil p)) hnd

/-- Witness for C2: two OTUs that resolve to the same species bucket of two
genomes; without replacement they receive distinct genomes. -/
theorem c2_without_replacement_witness :
    buckets_nodup engine_idx ∧
    ((map_otus_to_genomes engine_taxa engine_oracle
        [("o1", ["species__Ecoli"], [4]), ("o2", ["species__Ecoli"], [6])]
        engine_idx RANKS MAX_RANK 3 false).1.map pair_of).Nodup :=
  ⟨by decide,
   c2_without_replacement engine_taxa engine_oracle
     [("o1", ["species__Ecoli"], [4]), ("o2", ["species__Ecoli"], [6])]
     engine_idx RANKS MAX_RANK 3 (by decide)⟩

/-! ### C3: the strain-count draw and the clamp to the available genomes -/

theorem filterMap_getElem_length {α : Type} (l : List α) (c : List Nat)
    (h : ∀ i ∈ c, i < l.length) :
    (c.filterMap (fun i => l[i]?)).length = c.length := by
  induction c with
  | nil => rfl
  | cons i is ih =>
    have hi : i < l.length := h i (List.mem_cons_self i is)
    rw [List.filterMap_cons, List.getElem?_eq_getElem hi]
    simp only [List.length_cons]
    rw [ih (fun j hj => h j (List.mem_cons_of_mem i hj))]

theorem filterMap_getElem_nodup {α : Type} [DecidableEq α] (l : List α) (c : List Nat)
    (hl : l.Nodup) (hc : c.Nodup) (h : ∀ i ∈ c, i < l.length) :
    (c.filterMap (fun i => l[i]?)).Nodup := by
  induction c with
  | nil => exact List.nodup_nil
  | cons i is ih =>
    have hi : i < l.length := h i (List.mem_cons_self i is)
    rcases List.nodup_cons.mp hc with ⟨hnotin, his⟩
    rw [List.filterMap_cons, List.getElem?_eq_getElem hi]
    refine List.nodup_cons.mpr ⟨?_, ih his (fun j hj => h j (List.mem_cons_of_mem i hj))⟩
    intro hmem
    rcases List.mem_filterMap.mp hmem with ⟨j, hj, hjeq⟩
    have hjl : j < l.length := h j (List.mem_cons_of_mem i hj)
    rw [List.getElem?_eq_getElem hjl] at hjeq
    have hget : l.get ⟨i, hi⟩ = l.get ⟨j, hjl⟩ := by
      simpa using (Option.some.inj hjeq).symm
    have hij : (⟨i, hi⟩ : Fin l.length) = ⟨j, hjl⟩ :=
      List.nodup_iff_injective_get.mp hl hget
    have : i = j := congrArg Fin.val hij
    rw [this] at hnotin
    exact hnotin hj

/-- C3: at the moment the lineage walk finds a taxonomic id with available
genomes (head of the remaining lineage, rank within the maximum, bucket
present and nonempty), the strain count is `max(geometric % max_strains, 1)`
— always between 1 and `max_strains - 1` — and the OTU receives exactly
`min(available, drawn)` assignment records, hence at least one and never
more than the drawn count: a short bucket clamps the count down, it is
never padded. -/
theorem c3_strain_count (taxa : Taxa) (D : DrawOracle) (ranks : List String)
    (max_rank : String) (max_strains : Nat) (replace : Bool) (otu : String)
    (abundances : List ℚ) (idx : RankIndex) (tax_id : Nat) (rest : List Nat)
    (bm : BucketMap) (available : Bucket)
    (hms : 2 ≤ max_strains)
    (hclen : (D.choose otu available.length (max (D.geometric otu % max_strains) 1)).length =
      max (D.geometric otu % max_strains) 1)
    (hcnd : (D.choose otu available.length (max (D.geometric otu % max_strains) 1)).Nodup)
    (hclt : ∀ i ∈ D.choose otu available.length (max (D.geometric otu % max_strains) 1),
      i < available.length)
    (hrank : ¬ ranks.indexOf max_rank < ranks.indexOf (taxa.rank_of tax_id))
    (hbm : alookup idx (taxa.rank_of tax_id) = some bm)
    (hav : alookup bm tax_id = some available)
    (hne : available ≠ []) (hnd : available.Nodup) :
    1 ≤ max (D.geometric otu % max_strains) 1 ∧
    max (D.geometric otu % max_strains) 1 ≤ max_strains - 1 ∧
    (walk_lineage taxa D ranks max_rank max_strains replace otu abundances idx
      (tax_id :: rest)).1.length =
      min available.length (max (D.geometric otu % max_strains) 1) ∧
    1 ≤ (walk_lineage taxa D ranks max_rank max_strains replace otu abundances idx
      (tax_id :: rest)).1.length := by
  have hmod : D.geometric otu % max_strains ≤ max_strains - 1 := by
    have := Nat.mod_lt (D.geometric otu) (show 0 < max_strains by omega)
    omega
  have h1 : 1 ≤ max (D.geometric otu % max_strains) 1 := le_max_right _ 1
  have h2 : max (D.geometric otu % max_strains) 1 ≤ max_strains - 1 :=
    max_le hmod (by omega)
  have hlen : (walk_lineage taxa D ranks max_rank max_strains replace otu abundances idx
      (tax_id :: rest)).1.length =
      min available.length (max (D.geometric otu % max_strains) 1) := by
    simp only [walk_lineage, if_neg hrank, hbm, Option.getD_some, hav, strain_records_length]
    by_cases hge : available.length ≥ max (D.geometric otu % max_strains) 1
    · rw [if_pos hge, List.dedup_eq_self.mpr (filterMap_getElem_nodup available _ hnd hcnd hclt),
        filterMap_getElem_length available _ hclt, hclen, Nat.min_eq_right hge]
    · rw [if_neg hge, List.dedup_eq_self.mpr hnd,
        Nat.min_eq_left (Nat.le_of_lt (Nat.lt_of_not_le hge))]
  refine ⟨h1, h2, hlen, ?_⟩
  rw [hlen]
  have hpos : 0 < available.length := List.length_pos.mpr hne
  omega

/-- Witness for C3 at the concrete engine fixtures: species 7 has two
available genomes, the geometric sample is 1, so one record is produced. -/
theorem c3_strain_count_witness :
    (([("http://x/g1", 1), ("http://x/g2", 2)] : Bucket) ≠ [] ∧
     ([("http://x/g1", 1), ("http://x/g2", 2)] : Bucket).Nodup) ∧
    (1 ≤ max (engine_oracle.geometric "o1" % 3) 1 ∧
     max (engine_oracle.geometric "o1" % 3) 1 ≤ 3 - 1 ∧
     (walk_lineage engine_taxa engine_oracle RANKS MAX_RANK 3 true "o1" [4] engine_idx
       [7]).1.length =
       min ([("http://x/g1", 1), ("http://x/g2", 2)] : Bucket).length
         (max (engine_oracle.geometric "o1" % 3) 1) ∧
     1 ≤ (walk_lineage engine_taxa engine_oracle RANKS MAX_RANK 3 true "o1" [4] engine_idx
       [7]).1.length) :=
  ⟨⟨by decide, by decide⟩,
   c3_strain_count engine_taxa engine_oracle RANKS MAX_RANK 3 true "o1" [4] engine_idx 7 []
     [(7, [("http://x/g1", 1), ("http://x/g2", 2)])] [("http://x/g1", 1), ("http://x/g2", 2)]
     (by decide) (by decide) (by decide) (by decide) (by decide) (by decide) (by decide)
     (by decide) (by decide)⟩

/-! ## `fill_up` -/

/-- `fill_up(otu_genome_map, per_rank_map, tax_profile)`.  Its second
statement is the stray line
`per_rank_map[new_rank][taxid].remove((path,genome_id))`, whose names
`new_rank`, `taxid`, `path` and `genome_id` are not defined in the
function's scope (the line matches one inside `map_otus_to_genomes`), so
the call raises NameError unconditionally before touching its arguments;
everything after that line is dead code. -/
def fill_up (otu_genome_map : List (String × Assignment)) (per_rank_map : RankIndex)
    (tax_profile : List (String × List String × List ℚ)) :
    Except String (List (String × Assignment)) :=
  Except.error "NameError: name new_rank is not defined"

/-- C5: evaluating `fill_up` on the claim's scenario — no OTU assigned yet,
two OTUs with mean abundances 5.0 and 2.0, one remaining genome in the pool
— raises NameError instead of assigning the genome to the OTU with mean
2.0.  (Even ignoring the stray line, the loop guard `len(all_genomes) > 1`
refuses to hand out a last remaining genome, each bucket is unpacked as if
it held exactly a pair, and the loop variable is an (otu, mean) tuple, so
the membership test and the profile lookup use the wrong key.) -/
theorem c5_fill_up_raises :
    fill_up []
      [("species", [(7, [("http://x/g1", 1)])]), ("genus", []), ("family", [])]
      [("o1", ["species__Ecoli"], [5, 5]), ("o2", ["species__Ecoli"], [2, 2])] =
      Except.error "NameError: name new_rank is not defined" := rfl

/-! ## `generate_input`: the max-strains configuration lookup -/

/-- The expression `config.get("Main", max_strains_per_otu)` from
`generate_input`: `max_strains_per_otu` is a bare name with no binding
anywhere in the module (the string quotes are missing, unlike the adjacent
`"log_mu"`/`"log_sigma"` lookups), so evaluating it raises NameError before
the configuration is consulted. -/
def max_strains_lookup (config : List (String × String)) : Except String Nat :=
  Except.error "NameError: name max_strains_per_otu is not defined"

/-- The `try/except` around the lookup: any exception falls back to the
CAMI default of 3 with a warning. -/
def read_max_strains (config : List (String × String)) : Nat :=
  match max_strains_lookup config with
  | Except.ok v => v
  | Except.error _ => 3

/-- C7: even a configuration that sets `max_strains_per_otu` to 5 yields
the default 3 (with the "not set" warning) — for every configuration the
value used is 3, because the lookup raises NameError before reading the
configuration and the bare `except` swallows it. -/
theorem c7_max_strains_ignored :
    read_max_strains [("max_strains_per_otu", "5")] = 3 ∧
    ∀ config : List (String × String), read_max_strains config = 3 :=
  ⟨rfl, fun _ => rfl⟩

/-! ## `write_config`: the genome-retrieval retry loop -/

/-- One record's `while counter < 10` retry loop; `attempt k` is try number
k (`some path` when `download_genome`/`shutil.copy2` succeeds, `none` when
it raises).  Structural recursion on `fuel = 10 - counter`: the loop runs
while `counter < 10`, breaking with the path on success.  Returns the
retrieved path, if any, and the final counter. -/
def retrieve_go (attempt : Nat → Option String) : Nat → Nat → Option String × Nat
  | 0, counter => (none, counter)
  | fuel + 1, counter =>
    match attempt counter with
    | some p => (some p, counter)
    | none => retrieve_go attempt fuel (counter + 1)

def retrieve_loop (attempt : Nat → Option String) : Option String × Nat :=
  retrieve_go attempt 10 0

/-- The per-record retrieval of `write_config`: after the loop, `if counter
== 10` logs two errors — and the second log line formats the name `genome`,
which is not defined anywhere in `write_config`, so the error path itself
raises NameError, which propagates and aborts the writer.  On success the
retrieved path is the one written to `genome_to_id.tsv`. -/
def write_config_record (attempt : Nat → Option String) : Except String String :=
  match retrieve_loop attempt with
  | (gp, counter) =>
    if counter = 10 then Except.error "NameError: name genome is not defined"
    else
      match gp with
      | some p => Except.ok p
      | none => Except.error "unreachable: the loop only exits early on success"

/-- C8: a record whose retrieval fails on all 10 attempts is not
logged-and-skipped — the error path raises NameError (undefined name
`genome`), aborting `write_config` instead of continuing with the remaining
records.  A record that succeeds on a later attempt (here the 4th) is
retrieved normally with the counter below 10, and the exhausted loop stops
at counter 10, never attempting an 11th try. -/
theorem c8_retry_exhaustion_crashes :
    write_config_record (fun _ => none) =
      Except.error "NameError: name genome is not defined" ∧
    write_config_record (fun k => if k = 3 then some "g.fa" else none) =
      Except.ok "g.fa" ∧
    retrieve_loop (fun _ => none) = (none, 10) :=
  ⟨rfl, rfl, rfl⟩
